import Mathlib

/-!
Verification of the "resilient data-access core" of the BiLL2-Evo repository:
a shallow embedding of

* `helpers/retry_utils.py` (error classification, Retry-After parsing, and the
  tenacity-based exponential-backoff executor `retry_with_backoff`),
* `tools/fantasy/info.py` (`_resolve_player_ids`, the id-to-record resolution),
* `helpers/query_utils.py` (the position-filter logic of
  `build_player_stats_query`),
* `helpers/name_utils.py` (`sanitize_name`).

Machine strings are modelled over ASCII `Char` lists, Python floats by `ℚ`
(every value exercised here is an exact small rational), exceptions by an
explicit inductive type, and the wrapped network call of the retry executor by
a function from the 1-based attempt number to that attempt's outcome.
-/

/-! ## Python string primitives (ASCII model) -/

/-- ASCII model of Python's `str.isspace` characters / the regex class `\s`. -/
def isSpaceChar (c : Char) : Bool :=
  c = ' ' || c = '\t' || c = '\n' || c = '\r' || c = '\x0b' || c = '\x0c'

/-- ASCII model of the regex word-character class `\w` used by `\b`. -/
def isWordChar (c : Char) : Bool :=
  c.isAlpha || c.isDigit || c = '_'

/-- Python `str.lower` on one ASCII character. -/
def pyLowerChar (c : Char) : Char :=
  if 'A' ≤ c ∧ c ≤ 'Z' then Char.ofNat (c.toNat + 32) else c

/-- Python `str.upper` on one ASCII character. -/
def pyUpperChar (c : Char) : Char :=
  if 'a' ≤ c ∧ c ≤ 'z' then Char.ofNat (c.toNat - 32) else c

/-- Python `str.lower` (ASCII model). -/
def pyLower (s : List Char) : List Char := s.map pyLowerChar

/-- Python `str.upper` (ASCII model), as used by `p.upper()` in
`build_player_stats_query`. -/
def pyUpper (s : String) : String := ⟨s.data.map pyUpperChar⟩

/-- Python `str.isdigit` (ASCII model): non-empty and all characters `0`-`9`. -/
def isDigitStr (s : String) : Bool :=
  !s.data.isEmpty && s.data.all Char.isDigit

/-- Decimal value of a digit list, threading Python `int`'s left-to-right
accumulation; `a` is the accumulator. -/
def digitsValFrom (a : ℕ) (l : List Char) : ℕ :=
  l.foldl (fun acc c => 10 * acc + (c.toNat - 48)) a

/-- Python `int(s)` on a digit string (ASCII model). -/
def pyInt (s : String) : ℕ := digitsValFrom 0 s.data

/-- The ASCII digit character for `n < 10`. -/
def digitChar (n : ℕ) : Char := Char.ofNat (48 + n)

/-- Decimal digits of `n`, most significant first.  The first argument is
recursion fuel; `n + 1` steps always suffice since the value shrinks by a
factor of ten per step. -/
def natDigits : ℕ → ℕ → List Char
  | 0, _ => []
  | fuel + 1, n =>
    if n < 10 then [digitChar n] else natDigits fuel (n / 10) ++ [digitChar (n % 10)]

/-- Python `str(n)` for a natural number `n`: canonical decimal notation,
as produced by `str(int(row["sleeper_id"]))` in `_resolve_player_ids`. -/
def natStr (n : ℕ) : String := ⟨natDigits (n + 1) n⟩

/-- Model of Python `float(s)` restricted to the unsigned decimal literals the
`Retry-After` header carries: digit strings with an optional single point
(`"5"`, `"2.5"`, `"5."`, `".5"`); anything else fails like `ValueError`. -/
def pyFloat (s : String) : Option ℚ :=
  match s.data.splitOn '.' with
  | [ip] =>
    if !ip.isEmpty && ip.all Char.isDigit then some (digitsValFrom 0 ip) else none
  | [ip, fp] =>
    if (!ip.isEmpty || !fp.isEmpty) && ip.all Char.isDigit && fp.all Char.isDigit then
      some ((digitsValFrom 0 ip : ℚ) + (digitsValFrom 0 fp : ℚ) / (10 : ℚ) ^ fp.length)
    else none
  | _ => none

/-! ## `helpers/retry_utils.py` -/

/-- The slice of a `requests.Response` that `retry_utils.py` inspects:
`status_code` and the `Retry-After` header (absent modelled as `none`). -/
structure HttpResponse where
  status_code : ℕ
  retryAfterHeader : Option String
deriving DecidableEq

/-- The exception values distinguished by `retry_utils.py`:
`requests.exceptions.ConnectionError`, `requests.exceptions.Timeout`,
`requests.exceptions.HTTPError` (whose `response` attribute may be absent or
`None`, both modelled as `none`), and any other exception. -/
inductive PyExc where
  | connectionError : PyExc
  | timeout : PyExc
  | httpError (response : Option HttpResponse) : PyExc
  | otherExc : PyExc
deriving DecidableEq

/-- `is_retryable_http_error`: connection and timeout errors are retryable;
an `HTTPError` is retryable exactly when it carries a response with status
`>= 500` or `== 429`; everything else (including an `HTTPError` without a
response) is not. -/
def is_retryable_http_error : PyExc → Bool
  | .connectionError => true
  | .timeout => true
  | .httpError response =>
    match response with
    | some r => decide (500 ≤ r.status_code) || decide (r.status_code = 429)
    | none => false
  | .otherExc => false

/-- `get_retry_after_delay`: for a 429 `HTTPError` with a truthy (non-empty)
`Retry-After` header that parses as a plain number, the parsed delay in
seconds; otherwise `None`. -/
def get_retry_after_delay : PyExc → Option ℚ
  | .httpError (some r) =>
    if r.status_code = 429 then
      match r.retryAfterHeader with
      | some h => if h = "" then none else pyFloat h
      | none => none
    else none
  | _ => none

/-- The retry policy assembled by `retry_with_backoff` from its arguments
(or the `RETRY_*` environment defaults): `max_attempts`, and the
`initial_delay`, `max_delay`, `multiplier` in seconds. -/
structure RetryPolicy where
  max_attempts : ℕ
  initial_delay : ℚ
  max_delay : ℚ
  multiplier : ℚ
deriving DecidableEq

/-- Python's builtin `max` on two numbers. -/
def qmax (a b : ℚ) : ℚ := if a ≤ b then b else a

/-- Python's builtin `min` on two numbers. -/
def qmin (a b : ℚ) : ℚ := if b ≤ a then b else a

/-- tenacity's `wait_exponential(multiplier=initial, min=initial, max=maxd,
exp_base=mult)` evaluated after the failure of attempt `k`:
`max(max(0, min), min(multiplier * exp_base^(k-1), max))`. -/
def waitExponential (p : RetryPolicy) (k : ℕ) : ℚ :=
  qmax (qmax 0 p.initial_delay) (qmin (p.initial_delay * p.multiplier ^ (k - 1)) p.max_delay)

/-- What the executor can raise to its caller: either an exception value
re-raised as-is, or tenacity's `RetryError` wrapper recording the final
attempt's exception. -/
inductive RaisedExc where
  | original (e : PyExc) : RaisedExc
  | retryErrorWrap (lastAttempt : PyExc) : RaisedExc
deriving DecidableEq

deriving instance DecidableEq for Except

/-- Observable behaviour of one executor invocation: how many times the
wrapped function was called, the sleeps performed in order (seconds), and the
returned value or raised exception. -/
structure RetryResult (α : Type) where
  attempts : ℕ
  delays : List ℚ
  outcome : Except RaisedExc α

/-- One run of tenacity's retry loop starting at attempt number `k` with
`fuel` further attempts allowed after the current one
(`fuel = max_attempts - k`).  The wrapped call `f` maps the 1-based attempt
number to that attempt's outcome.  A non-retryable exception is re-raised
immediately; on exhaustion the final exception is re-raised as-is when
`reraise` is set (as `retry_with_backoff` does) and wrapped in `RetryError`
otherwise.  Returns (calls made, sleeps performed, outcome). -/
def retryGo {α : Type} (p : RetryPolicy) (retryPred : PyExc → Bool) (reraise : Bool)
    (f : ℕ → Except PyExc α) : ℕ → ℕ → ℕ × List ℚ × Except RaisedExc α
  | k, 0 =>
    match f k with
    | .ok v => (1, [], .ok v)
    | .error e =>
      if retryPred e then
        (1, [], .error (if reraise then .original e else .retryErrorWrap e))
      else (1, [], .error (.original e))
  | k, fuel + 1 =>
    match f k with
    | .ok v => (1, [], .ok v)
    | .error e =>
      if retryPred e then
        let r := retryGo p retryPred reraise f (k + 1) fuel
        (r.1 + 1, waitExponential p k :: r.2.1, r.2.2)
      else (1, [], .error (.original e))

/-- `retry_with_backoff(policy)` applied to a call `f`: tenacity with
`stop_after_attempt`, `wait_exponential`, `retry_if_exception(should_retry)`
and `reraise=True`, then the wrapper that unwraps a `RetryError` back to the
final attempt's original exception. -/
def retry_with_backoff {α : Type} (p : RetryPolicy) (f : ℕ → Except PyExc α) :
    RetryResult α :=
  let r := retryGo p is_retryable_http_error true f 1 (p.max_attempts - 1)
  { attempts := r.1
    delays := r.2.1
    outcome :=
      match r.2.2 with
      | .error (.retryErrorWrap e) => .error (.original e)
      | x => x }

/-- Modelled from the spec: `async_retry_with_backoff`, the suspendable retry
form.  `base_api.py` imports it from `helpers/retry_utils.py`, but no
definition of it is present under the sources provided; per the spec it has
"byte-for-byte identical policy semantics" to the blocking form, awaiting
between attempts instead of sleeping.  Implemented here as a separate
accumulator-style loop over the same policy ingredients. -/
def asyncRetryGo {α : Type} (p : RetryPolicy) (retryPred : PyExc → Bool)
    (f : ℕ → Except PyExc α) : ℕ → ℕ → ℕ → List ℚ → ℕ × List ℚ × Except RaisedExc α
  | k, 0, calls, waited =>
    match f k with
    | .ok v => (calls + 1, waited.reverse, .ok v)
    | .error e => (calls + 1, waited.reverse, .error (.original e))
  | k, fuel + 1, calls, waited =>
    match f k with
    | .ok v => (calls + 1, waited.reverse, .ok v)
    | .error e =>
      if retryPred e then
        asyncRetryGo p retryPred f (k + 1) fuel (calls + 1) (waitExponential p k :: waited)
      else (calls + 1, waited.reverse, .error (.original e))

/-- Modelled from the spec: entry point of the suspendable retry form (see
`asyncRetryGo`). -/
def async_retry_with_backoff {α : Type} (p : RetryPolicy) (f : ℕ → Except PyExc α) :
    RetryResult α :=
  let r := asyncRetryGo p is_retryable_http_error f 1 (p.max_attempts - 1) 0 []
  { attempts := r.1, delays := r.2.1, outcome := r.2.2 }

/-! ## `helpers/name_utils.py` -/

/-- The alternatives of `_suffix_re = \b(jr|sr|ii|iii|iv|v)\b\.?`, in Python's
alternation order, lower-cased (the regex is compiled with `re.I`). -/
def suffixWords : List (List Char) := [['j', 'r'], ['s', 'r'], ['i', 'i'], ['i', 'i', 'i'], ['i', 'v'], ['v']]

/-- Case-insensitive removal of the word `w` from the front of `s`; `none`
when `s` does not start with `w`. -/
def dropWordCI : List Char → List Char → Option (List Char)
  | [], s => some s
  | _ :: _, [] => none
  | w :: ws, c :: cs => if pyLowerChar c = w then dropWordCI ws cs else none

/-- The `\b` after the suffix group: the next character, if any, is not a word
character (the group always ends in a letter). -/
def boundaryAfter : List Char → Bool
  | [] => true
  | c :: _ => !isWordChar c

/-- The trailing `\.?` of `_suffix_re`: greedily consume one dot.  Returns
whether the last character consumed by the overall match is a word character
(needed for the `\b` of a subsequent match) and the remaining input. -/
def eatDot : List Char → Bool × List Char
  | '.' :: cs => (false, cs)
  | cs => (true, cs)

/-- Try to match one alternative `w` of `_suffix_re` at the current position
(the leading `\b` has already been checked by the caller). -/
def tryWord (s w : List Char) : Option (Bool × List Char) :=
  match dropWordCI w s with
  | some rest => if boundaryAfter rest then some (eatDot rest) else none
  | none => none

/-- First alternative that matches, in Python's alternation order. -/
def firstWordMatch (s : List Char) : List (List Char) → Option (Bool × List Char)
  | [] => none
  | w :: ws =>
    match tryWord s w with
    | some r => some r
    | none => firstWordMatch s ws

/-- A match of `_suffix_re` at the current position, if any. -/
def matchSuffix (s : List Char) : Option (Bool × List Char) :=
  firstWordMatch s suffixWords

/-- `_suffix_re.sub("", s)`: left-to-right non-overlapping replacement.
`prevWord` records whether the previous character of the original string is a
word character (so `\b` holds at the current position iff `prevWord` is
false, the group starting with a letter).  The first argument is recursion
fuel; every step consumes at least one character, so `s.length` steps always
suffice. -/
def subSuffixGo : ℕ → Bool → List Char → List Char
  | 0, _, s => s
  | fuel + 1, prevWord, s =>
    match s with
    | [] => []
    | c :: cs =>
      if prevWord then c :: subSuffixGo fuel (isWordChar c) cs
      else
        match matchSuffix (c :: cs) with
        | some pr => subSuffixGo fuel pr.1 pr.2
        | none => c :: subSuffixGo fuel (isWordChar c) cs

/-- `_suffix_re.sub("", s)` on a whole string. -/
def subSuffix (s : List Char) : List Char := subSuffixGo s.length false s

/-- The character class kept by `_punct_re.sub("", s)` with
`_punct_re = [^A-Za-z0-9\s-]`. -/
def punctKeep (c : Char) : Bool :=
  c.isAlpha || c.isDigit || isSpaceChar c || c = '-'

/-- `_spaces_re.sub(" ", s)` with `_spaces_re = \s+`: every maximal run of
whitespace becomes a single space.  `prevWs` records whether the previous
character belonged to a whitespace run already emitted as `' '`. -/
def collapseWs : Bool → List Char → List Char
  | _, [] => []
  | prevWs, c :: cs =>
    if isSpaceChar c then
      if prevWs then collapseWs true cs else ' ' :: collapseWs true cs
    else c :: collapseWs false cs

/-- Python `str.strip()`: drop leading and trailing whitespace. -/
def pyStrip (l : List Char) : List Char :=
  ((l.dropWhile isSpaceChar).reverse.dropWhile isSpaceChar).reverse

/-- The optional `unidecode` import of `name_utils.py`: `some u` when the
dependency is installed (an ASCII transliteration), `none` when the import
failed and the module falls back to the raw string. -/
def applyUnidecode (unidec : Option (List Char → List Char)) (s : List Char) : List Char :=
  match unidec with
  | some u => u s
  | none => s

/-- `sanitize_name`: optional transliteration, suffix-token removal,
punctuation removal, whitespace collapsing, strip, lower-case. -/
def sanitize_name (unidec : Option (List Char → List Char)) (name : String) : String :=
  let s1 := applyUnidecode unidec name.data
  let s2 := subSuffix s1
  let s3 := s2.filter punctKeep
  let s4 := pyStrip (collapseWs false s3)
  ⟨pyLower s4⟩

/-! ## `tools/fantasy/info.py` -/

/-- One row of the `vw_nfl_players_with_dynasty_ids` view as selected by
`_resolve_player_ids` (`sleeper_id, display_name, latest_team, position`);
the name/team/position columns may be null, read with `row.get(..., default)`. -/
structure PlayerRow where
  sleeper_id : ℕ
  display_name : Option String
  latest_team : Option String
  position : Option String
deriving DecidableEq

/-- The compact `{name, position, team}` record `_resolve_player_ids`
returns per input id. -/
structure ResolvedRecord where
  name : String
  position : String
  team : String
deriving DecidableEq

/-- The record built from a returned row:
`{"name": row.get("display_name", "Unknown"), "position": row.get("position", ""),
"team": row.get("latest_team", "")}`. -/
def recordOfRow (r : PlayerRow) : ResolvedRecord :=
  { name := r.display_name.getD "Unknown"
    position := r.position.getD ""
    team := r.latest_team.getD "" }

/-- Python dict lookup on an insertion-ordered association list where a later
binding of the same key overwrites an earlier one. -/
def dictGet (l : List (String × ResolvedRecord)) (k : String) : Option ResolvedRecord :=
  l.foldl (fun acc kv => if kv.1 = k then some kv.2 else acc) none

/-- The backend queries one `_resolve_player_ids` call issues: a single
`.in_("sleeper_id", [int(pid) for pid in numeric_ids])` query when there is
at least one numeric id, none otherwise.  Each element is the id list of one
`.execute()` round-trip. -/
def resolveBatches (player_ids : List String) : List (List ℕ) :=
  let numeric_ids := player_ids.filter isDigitStr
  if numeric_ids.isEmpty then [] else [numeric_ids.map pyInt]

/-- `_resolve_player_ids(supabase, player_ids)`.  The Supabase view is
modelled as the list `db` of its rows; the `.in_` query returns the rows
whose `sleeper_id` is among the requested integers, in table order. -/
def _resolve_player_ids (db : List PlayerRow) (player_ids : List String) :
    List ResolvedRecord :=
  if player_ids.isEmpty then []
  else
    let numeric_ids := player_ids.filter isDigitStr
    let lookup : List (String × ResolvedRecord) :=
      if !numeric_ids.isEmpty then
        (db.filter (fun r => decide (r.sleeper_id ∈ numeric_ids.map pyInt))).map
          (fun r => (natStr r.sleeper_id, recordOfRow r))
      else []
    player_ids.map (fun pid =>
      match dictGet lookup pid with
      | some rec => rec
      | none =>
        { name := pid
          position := if !isDigitStr pid then "DEF" else ""
          team := if !isDigitStr pid then pid else "" })

/-- The last row of `db` whose `sleeper_id` prints (canonically, via
`str(int(...))`) exactly as `pid`; later rows overwrite earlier ones just as
the Python dict build does. -/
def rowFor (db : List PlayerRow) (pid : String) : Option PlayerRow :=
  db.foldl (fun acc r => if natStr r.sleeper_id = pid then some r else acc) none

/-- Specification-side per-id result, following the spec's words: a numeric
id resolves from the backend when some row prints as exactly that id, else
falls back to `{name: id, position: "", team: ""}`; a non-numeric id gets the
fixed fallback `{name: id, position: "DEF", team: id}`. -/
def specResolveOne (db : List PlayerRow) (pid : String) : ResolvedRecord :=
  if isDigitStr pid then
    match rowFor db pid with
    | some r => recordOfRow r
    | none => { name := pid, position := "", team := "" }
  else { name := pid, position := "DEF", team := pid }

/-! ## `helpers/query_utils.py` (position-filter logic of `build_player_stats_query`) -/

/-- A row of a stats table/view, restricted to the columns the position
filter touches. -/
structure StatRow where
  player_name : String
  season : ℕ
  position : String
deriving DecidableEq

/-- Lines 103-105 of `query_utils.py`:
`positions_list = positions if positions is not None else default_positions`
then `positions_list = [p.upper() for p in positions_list] if positions_list
else None` (an empty — falsy — list becomes `None`). -/
def positionsListOf (positions : Option (List String)) (default_positions : List String) :
    Option (List String) :=
  let pl := match positions with
    | some p => p
    | none => default_positions
  if pl.isEmpty then none else some (pl.map pyUpper)

/-- Line 120-121 of `query_utils.py`: `if positions_list: query =
query.in_(position_column, positions_list)`, with the `.in_` filter read as
row-membership filtering on the position column. -/
def applyPositionFilter (positions : Option (List String)) (default_positions : List String)
    (rows : List StatRow) : List StatRow :=
  match positionsListOf positions default_positions with
  | none => rows
  | some pl => rows.filter (fun r => pl.contains r.position)

/-! ## Concrete scenarios exercised by the specification -/

/-- The spec's example retry policy: 3 attempts, 1s initial delay, 4s cap,
multiplier 2. -/
def examplePolicy : RetryPolicy := ⟨3, 1, 4, 2⟩

/-- A call failing with a connection error on attempts 1 and 2 and succeeding
on attempt 3. -/
def connThenOk : ℕ → Except PyExc ℕ :=
  fun k => if k ≤ 2 then .error .connectionError else .ok 7

/-- A 429 rate-limit error carrying the header `Retry-After: 5`. -/
def rateLimited5 : PyExc := .httpError (some ⟨429, some "5"⟩)

/-- A call rate-limited (with wait hint 5) on attempt 1, succeeding on
attempt 2. -/
def rateLimitedThenOk : ℕ → Except PyExc ℕ :=
  fun k => if k = 1 then .error rateLimited5 else .ok 0

/-- A call failing with a (retryable) timeout on every attempt. -/
def alwaysTimeout : ℕ → Except PyExc ℕ := fun _ => .error .timeout

/-- A call failing with an `HTTPError` that carries no response object. -/
def noRespFail : ℕ → Except PyExc ℕ := fun _ => .error (.httpError none)

/-- 250 distinct numeric ids `"1"` .. `"250"`. -/
def ids250 : List String := (List.range 250).map (fun i => natStr (i + 1))

/-- Two stats rows used to exercise the position filter. -/
def sampleRows : List StatRow :=
  [{ player_name := "Patrick Mahomes", season := 2024, position := "QB" },
   { player_name := "Justin Jefferson", season := 2024, position := "WR" }]

/-- A backend holding a single player row with `sleeper_id = 7`. -/
def dbSeven : List PlayerRow :=
  [{ sleeper_id := 7, display_name := some "X", latest_team := some "KC", position := some "QB" }]

/-! ## Invariants used to reason about `sanitize_name` -/

/-- No two adjacent whitespace characters. -/
def WsOk (l : List Char) : Prop :=
  l.Chain' (fun a b => ¬(isSpaceChar a = true ∧ isSpaceChar b = true))

/-- The first character, if any, is not whitespace. -/
def HeadNotWs (l : List Char) : Prop :=
  ∀ c ∈ l.head?, isSpaceChar c = false

/-- The final character, if any, is not whitespace. -/
def LastNotWs (l : List Char) : Prop :=
  ∀ c ∈ l.getLast?, isSpaceChar c = false

/-! ## Lemmas on the retry executor -/

/-- Every sleep of a retry run is the `wait_exponential` value for the attempt
that just failed: the delay at index `i` of a run starting at attempt `k` is
`waitExponential p (k + i)`. -/
theorem retryGo_delays_get {α : Type} (p : RetryPolicy) (pred : PyExc → Bool) (rr : Bool)
    (f : ℕ → Except PyExc α) :
    ∀ (fuel k i : ℕ) (d : ℚ), ((retryGo p pred rr f k fuel).2.1)[i]? = some d →
      d = waitExponential p (k + i) := by
  intro fuel
  induction fuel with
  | zero =>
    intro k i d h
    cases hfk : f k with
    | ok v => simp [retryGo, hfk] at h
    | error e =>
      by_cases hp : pred e <;> simp [retryGo, hfk, hp] at h
  | succ fuel ih =>
    intro k i d h
    cases hfk : f k with
    | ok v => simp [retryGo, hfk] at h
    | error e =>
      by_cases hp : pred e
      · simp [retryGo, hfk, hp] at h
        cases i with
        | zero =>
          simp at h
          simp [h.symm]
        | succ i =>
          simp at h
          have := ih (k + 1) i d h
          have hk : k + 1 + i = k + (i + 1) := by omega
          rw [hk] at this
          exact this
      · simp [retryGo, hfk, hp] at h

/-- With `reraise=True` (as `retry_with_backoff` sets), the tenacity loop
never surfaces the `RetryError` wrapper. -/
theorem retryGo_no_wrap {α : Type} (p : RetryPolicy) (pred : PyExc → Bool)
    (f : ℕ → Except PyExc α) :
    ∀ (fuel k : ℕ) (e : PyExc),
      (retryGo p pred true f k fuel).2.2 ≠ .error (.retryErrorWrap e) := by
  intro fuel
  induction fuel with
  | zero =>
    intro k e h
    cases hfk : f k with
    | ok v => simp [retryGo, hfk] at h
    | error e' => by_cases hp : pred e' <;> simp [retryGo, hfk, hp] at h
  | succ fuel ih =>
    intro k e h
    cases hfk : f k with
    | ok v => simp [retryGo, hfk] at h
    | error e' =>
      by_cases hp : pred e'
      · simp [retryGo, hfk, hp] at h
        exact ih (k + 1) e h
      · simp [retryGo, hfk, hp] at h

/-- If every attempt from `k` through `k + fuel` fails with an error the
predicate retries, the loop makes exactly `fuel + 1` calls and re-raises the
final attempt's own error. -/
theorem retryGo_exhaust {α : Type} (p : RetryPolicy) (pred : PyExc → Bool)
    (f : ℕ → Except PyExc α) :
    ∀ (fuel k : ℕ),
      (∀ j, k ≤ j → j ≤ k + fuel → ∃ e, f j = .error e ∧ pred e = true) →
      ∃ e, f (k + fuel) = .error e ∧
        (retryGo p pred true f k fuel).1 = fuel + 1 ∧
        (retryGo p pred true f k fuel).2.2 = .error (.original e) := by
  intro fuel
  induction fuel with
  | zero =>
    intro k hall
    obtain ⟨e, hfe, hpe⟩ := hall k (le_refl k) (by omega)
    exact ⟨e, by simpa using hfe, by simp [retryGo, hfe, hpe], by simp [retryGo, hfe, hpe]⟩
  | succ fuel ih =>
    intro k hall
    obtain ⟨e, hfe, hpe⟩ := hall k (le_refl k) (by omega)
    obtain ⟨e', hfe', h1, h2⟩ := ih (k + 1) (fun j hj1 hj2 => hall j (by omega) (by omega))
    refine ⟨e', ?_, ?_, ?_⟩
    · have hk : k + 1 + fuel = k + (fuel + 1) := by omega
      rw [hk] at hfe'
      exact hfe'
    · simp [retryGo, hfe, hpe, h1]
    · simp [retryGo, hfe, hpe, h2]

/-- The accumulator-style suspendable loop computes exactly the blocking
loop's call count, delay schedule and outcome. -/
theorem asyncRetryGo_eq_retryGo {α : Type} (p : RetryPolicy) (pred : PyExc → Bool)
    (f : ℕ → Except PyExc α) :
    ∀ (fuel k calls : ℕ) (waited : List ℚ),
      asyncRetryGo p pred f k fuel calls waited =
        ((retryGo p pred true f k fuel).1 + calls,
         waited.reverse ++ (retryGo p pred true f k fuel).2.1,
         (retryGo p pred true f k fuel).2.2) := by
  intro fuel
  induction fuel with
  | zero =>
    intro k calls waited
    cases hfk : f k with
    | ok v => simp [asyncRetryGo, retryGo, hfk, Nat.add_comm]
    | error e =>
      by_cases hp : pred e <;>
        simp [asyncRetryGo, retryGo, hfk, hp, Nat.add_comm]
  | succ fuel ih =>
    intro k calls waited
    cases hfk : f k with
    | ok v => simp [asyncRetryGo, retryGo, hfk, Nat.add_comm]
    | error e =>
      by_cases hp : pred e
      · simp only [asyncRetryGo, retryGo, hfk, hp, if_pos]
        rw [ih (k + 1) (calls + 1) (waitExponential p k :: waited)]
        refine Prod.ext ?_ (Prod.ext ?_ rfl)
        · simp; omega
        · simp
      · simp [asyncRetryGo, retryGo, hfk, hp, Nat.add_comm]

/-- `qmax` agrees with the order-theoretic `max` on `ℚ`. -/
theorem qmax_eq_max (a b : ℚ) : qmax a b = max a b := by
  unfold qmax
  split_ifs with h
  · exact (max_eq_right h).symm
  · exact (max_eq_left (le_of_not_le h)).symm

/-- `qmin` agrees with the order-theoretic `min` on `ℚ`. -/
theorem qmin_eq_min (a b : ℚ) : qmin a b = min a b := by
  unfold qmin
  split_ifs with h
  · exact (min_eq_right h).symm
  · exact (min_eq_left (le_of_not_le h)).symm

/-! ## Claim theorems: retry executor -/

/-- C2: for every retry policy (with the nonnegative initial delay every
real policy has) the delay slept at 0-based index `i` — i.e. before attempt
`i + 2`, after the failure of attempt `k = i + 1` — equals
`clamp(initialDelay * multiplier^(k-1), initialDelay, maxDelay)`; and with
policy (max=3, initial=1s, max=4s, mult=2) and a call failing with a
connection error on attempts 1 and 2 and succeeding on attempt 3, the
function is called exactly 3 times with delays 1s then 2s. -/
theorem c2_backoff_schedule :
    (∀ (α : Type) (p : RetryPolicy) (f : ℕ → Except PyExc α) (i : ℕ) (d : ℚ),
        0 ≤ p.initial_delay →
        ((retry_with_backoff p f).delays)[i]? = some d →
        d = max p.initial_delay (min (p.initial_delay * p.multiplier ^ i) p.max_delay)) ∧
    (retry_with_backoff examplePolicy connThenOk).attempts = 3 ∧
    (retry_with_backoff examplePolicy connThenOk).delays = [1, 2] := by
  refine ⟨?_, ?_, ?_⟩
  · intro α p f i d h0 h
    simp only [retry_with_backoff] at h
    have hd := retryGo_delays_get p is_retryable_http_error true f (p.max_attempts - 1) 1 i d h
    rw [hd, waitExponential, qmax_eq_max, qmax_eq_max, qmin_eq_min,
      Nat.add_sub_cancel_left, max_eq_right h0]
  · norm_num [retry_with_backoff, retryGo, connThenOk, examplePolicy, waitExponential,
      qmax, qmin, is_retryable_http_error]
  · norm_num [retry_with_backoff, retryGo, connThenOk, examplePolicy, waitExponential,
      qmax, qmin, is_retryable_http_error]

/-- C2 witness: the schedule law instantiated at the example policy, the
connection-failure scenario and delay index 0. -/
theorem c2_backoff_schedule_witness :
    (0 : ℚ) ≤ examplePolicy.initial_delay ∧
    ((retry_with_backoff examplePolicy connThenOk).delays)[0]? = some 1 ∧
    (1 : ℚ) = max examplePolicy.initial_delay
      (min (examplePolicy.initial_delay * examplePolicy.multiplier ^ 0)
        examplePolicy.max_delay) :=
  ⟨by norm_num [examplePolicy],
   by norm_num [retry_with_backoff, retryGo, connThenOk, examplePolicy, waitExponential,
     qmax, qmin, is_retryable_http_error],
   c2_backoff_schedule.1 ℕ examplePolicy connThenOk 0 1 (by norm_num [examplePolicy])
     (by norm_num [retry_with_backoff, retryGo, connThenOk, examplePolicy, waitExponential,
       qmax, qmin, is_retryable_http_error])⟩

/-- C3: when every one of the `max_attempts` attempts fails with a retryable
error, the executor makes exactly `max_attempts` calls and raises exactly the
final attempt's own error value, never a retries-exhausted wrapper. -/
theorem c3_exhaustion_original_error :
    ∀ (α : Type) (p : RetryPolicy) (f : ℕ → Except PyExc α),
      1 ≤ p.max_attempts →
      (∀ k, 1 ≤ k → k ≤ p.max_attempts →
        ∃ e, f k = .error e ∧ is_retryable_http_error e = true) →
      (retry_with_backoff p f).attempts = p.max_attempts ∧
      ∃ e, f p.max_attempts = .error e ∧
        (retry_with_backoff p f).outcome = .error (.original e) := by
  intro α p f hmax hall
  obtain ⟨e, hfe, h1, h2⟩ := retryGo_exhaust p is_retryable_http_error f (p.max_attempts - 1) 1
    (fun j hj1 hj2 => hall j hj1 (by omega))
  have hm : 1 + (p.max_attempts - 1) = p.max_attempts := by omega
  rw [hm] at hfe
  refine ⟨?_, e, hfe, ?_⟩
  · simp only [retry_with_backoff]
    rw [h1]
    omega
  · simp only [retry_with_backoff]
    rw [h2]

/-- C3 witness: the exhaustion law at the example policy and a call that
times out on every attempt. -/
theorem c3_exhaustion_original_error_witness :
    1 ≤ examplePolicy.max_attempts ∧
    ((retry_with_backoff examplePolicy alwaysTimeout).attempts = examplePolicy.max_attempts ∧
      ∃ e, alwaysTimeout examplePolicy.max_attempts = .error e ∧
        (retry_with_backoff examplePolicy alwaysTimeout).outcome = .error (.original e)) :=
  ⟨by norm_num [examplePolicy],
   c3_exhaustion_original_error ℕ examplePolicy alwaysTimeout
     (by norm_num [examplePolicy]) (fun k _ _ => ⟨.timeout, rfl, rfl⟩)⟩

/-- C6 (code-bug evidence): the rate-limit failure on attempt 1 carries a
wait hint that `get_retry_after_delay` parses as 5 seconds, yet the executor
sleeps the computed exponential-backoff delay of 1 second before attempt 2 —
`retry_with_backoff` never consults `get_retry_after_delay`, contradicting
its own docstring ("Respects Retry-After header if present"). -/
theorem c6_retry_after_hint_ignored :
    get_retry_after_delay rateLimited5 = some 5 ∧
    is_retryable_http_error rateLimited5 = true ∧
    (retry_with_backoff examplePolicy rateLimitedThenOk).attempts = 2 ∧
    (retry_with_backoff examplePolicy rateLimitedThenOk).delays = [1] ∧
    (1 : ℚ) ≠ 5 := by
  refine ⟨by decide, by decide, ?_, ?_, by norm_num⟩ <;>
    norm_num [retry_with_backoff, retryGo, rateLimitedThenOk, rateLimited5, examplePolicy,
      waitExponential, qmax, qmin, is_retryable_http_error]

/-- C7: the blocking executor and the (spec-modelled) suspendable executor
produce the same attempt count, the same delay schedule and the same outcome
for every policy, wrapped call and failure sequence. -/
theorem c7_async_sync_equivalent :
    ∀ (α : Type) (p : RetryPolicy) (f : ℕ → Except PyExc α),
      (async_retry_with_backoff p f).attempts = (retry_with_backoff p f).attempts ∧
      (async_retry_with_backoff p f).delays = (retry_with_backoff p f).delays ∧
      (async_retry_with_backoff p f).outcome = (retry_with_backoff p f).outcome := by
  intro α p f
  have h := asyncRetryGo_eq_retryGo p is_retryable_http_error f (p.max_attempts - 1) 1 0 []
  refine ⟨?_, ?_, ?_⟩ <;> simp only [async_retry_with_backoff, retry_with_backoff, h]
  · simp
  · simp
  · rcases ho : (retryGo p is_retryable_http_error true f 1 (p.max_attempts - 1)).2.2 with er | v
    · cases er with
      | original e => rfl
      | retryErrorWrap e =>
        exact absurd ho (retryGo_no_wrap p is_retryable_http_error f (p.max_attempts - 1) 1 e)
    · rfl

/-- C10: an `HTTPError` with no attached response is classified
non-retryable, so a call raising it on attempt 1 is attempted exactly once,
with no backoff sleep, and the error propagates unchanged. -/
theorem c10_no_response_not_retryable :
    is_retryable_http_error (.httpError none) = false ∧
    ∀ (α : Type) (p : RetryPolicy) (f : ℕ → Except PyExc α),
      f 1 = .error (.httpError none) →
      (retry_with_backoff p f).attempts = 1 ∧
      (retry_with_backoff p f).delays = [] ∧
      (retry_with_backoff p f).outcome = .error (.original (.httpError none)) := by
  refine ⟨rfl, ?_⟩
  intro α p f hf
  cases hm : p.max_attempts - 1 with
  | zero =>
    refine ⟨?_, ?_, ?_⟩ <;>
      simp [retry_with_backoff, hm, retryGo, hf, is_retryable_http_error]
  | succ n =>
    refine ⟨?_, ?_, ?_⟩ <;>
      simp [retry_with_backoff, hm, retryGo, hf, is_retryable_http_error]

/-- C10 witness: the one-shot law at the example policy and a call whose
`HTTPError` has no response. -/
theorem c10_no_response_not_retryable_witness :
    noRespFail 1 = .error (.httpError none) ∧
    ((retry_with_backoff examplePolicy noRespFail).attempts = 1 ∧
      (retry_with_backoff examplePolicy noRespFail).delays = [] ∧
      (retry_with_backoff examplePolicy noRespFail).outcome =
        .error (.original (.httpError none))) :=
  ⟨rfl, c10_no_response_not_retryable.2 ℕ examplePolicy noRespFail rfl⟩

/-! ## Claim theorems: id resolution call pattern -/

/-- C4 (code-bug evidence): `_resolve_player_ids` keeps no cache — its
backend traffic is a pure function of the argument list, so a second call
with the same ids `["100", "200"]` issues the same single `.in_` query again
(one call, not the zero calls a TTL cache would give). -/
theorem c4_stateless_requery :
    resolveBatches ["100", "200"] = [[100, 200]] ∧
    (resolveBatches ["100", "200"]).length = 1 := by decide

set_option maxRecDepth 8000 in
/-- C5 (code-bug evidence): resolving 250 distinct uncached numeric ids
issues exactly one backend query carrying all 250 ids — not 3 batches of
sizes 100, 100, 50 under a batch cap. -/
theorem c5_single_unbatched_query :
    (resolveBatches ids250).length = 1 ∧
    (resolveBatches ids250).map List.length = [250] ∧
    (resolveBatches ids250).map List.length ≠ [100, 100, 50] := by decide

/-! ## Lemmas on decimal printing and the lookup dictionary -/

/-- `digitChar n` is a decimal digit for `n < 10`. -/
theorem digitChar_isDigit (n : ℕ) (h : n < 10) : (digitChar n).isDigit = true := by
  interval_cases n <;> decide

/-- The numeric value of `digitChar n` for `n < 10`. -/
theorem digitChar_toNat (n : ℕ) (h : n < 10) : (digitChar n).toNat - 48 = n := by
  interval_cases n <;> decide

/-- With sufficient fuel, `natDigits` yields a nonempty list of decimal
digits whose left-fold value recovers `n`. -/
theorem natDigits_spec :
    ∀ (fuel n : ℕ), n < fuel →
      natDigits fuel n ≠ [] ∧
      (∀ c ∈ natDigits fuel n, c.isDigit = true) ∧
      ∀ a, digitsValFrom a (natDigits fuel n) = a * 10 ^ (natDigits fuel n).length + n := by
  intro fuel
  induction fuel with
  | zero => intro n h; omega
  | succ fuel ih =>
    intro n h
    by_cases h10 : n < 10
    · refine ⟨by simp [natDigits, h10], ?_, ?_⟩
      · intro c hc
        simp [natDigits, h10] at hc
        rw [hc]
        exact digitChar_isDigit n h10
      · intro a
        simp [natDigits, h10, digitsValFrom, digitChar_toNat n h10]
        ring
    · have hrec : n / 10 < fuel := by
        have hlt : n / 10 < n := Nat.div_lt_self (by omega) (by norm_num)
        omega
      obtain ⟨hne, hdig, hval⟩ := ih (n / 10) hrec
      have hm10 : n % 10 < 10 := Nat.mod_lt _ (by norm_num)
      refine ⟨by simp [natDigits, h10], ?_, ?_⟩
      · intro c hc
        simp [natDigits, h10] at hc
        rcases hc with hc | hc
        · exact hdig c hc
        · rw [hc]
          exact digitChar_isDigit _ hm10
      · intro a
        have hstep : digitsValFrom a (natDigits (fuel + 1) n) =
            10 * digitsValFrom a (natDigits fuel (n / 10)) + ((digitChar (n % 10)).toNat - 48) := by
          simp [natDigits, h10, digitsValFrom, List.foldl_append]
        rw [hstep, digitChar_toNat _ hm10, hval a]
        have hlen : (natDigits (fuel + 1) n).length = (natDigits fuel (n / 10)).length + 1 := by
          simp [natDigits, h10]
        rw [hlen, pow_succ]
        have hdm : 10 * (n / 10) + n % 10 = n := Nat.div_add_mod n 10
        ring_nf
        omega

/-- `int(str(n)) = n`: the canonical decimal print of `n` parses back to `n`. -/
theorem pyInt_natStr (n : ℕ) : pyInt (natStr n) = n := by
  obtain ⟨-, -, hval⟩ := natDigits_spec (n + 1) n (by omega)
  simpa [pyInt, natStr] using hval 0

/-- The canonical decimal print of `n` is a digit string. -/
theorem natStr_isDigitStr (n : ℕ) : isDigitStr (natStr n) = true := by
  obtain ⟨hne, hdig, -⟩ := natDigits_spec (n + 1) n (by omega)
  simp only [isDigitStr, natStr, Bool.and_eq_true, Bool.not_eq_true', List.all_eq_true]
  exact ⟨by simpa [List.isEmpty_iff] using hne, hdig⟩

/-- The Python dict built from the returned rows, looked up at `pid`, yields
the record of the last row whose id prints as `pid`. -/
theorem dictGet_map_eq_rowFor (db : List PlayerRow) (pid : String) :
    dictGet (db.map (fun r => (natStr r.sleeper_id, recordOfRow r))) pid =
      (rowFor db pid).map recordOfRow := by
  suffices h : ∀ (acc : Option PlayerRow),
      (db.map (fun r => (natStr r.sleeper_id, recordOfRow r))).foldl
        (fun acc kv => if kv.1 = pid then some kv.2 else acc) (acc.map recordOfRow) =
      (db.foldl (fun acc r => if natStr r.sleeper_id = pid then some r else acc) acc).map
        recordOfRow from h none
  induction db with
  | nil => intro acc; rfl
  | cons r db ih =>
    intro acc
    simp only [List.map_cons, List.foldl_cons]
    have hcomm : (if (natStr r.sleeper_id, recordOfRow r).1 = pid
          then some (recordOfRow r) else Option.map recordOfRow acc) =
        Option.map recordOfRow (if natStr r.sleeper_id = pid then some r else acc) := by
      split_ifs <;> rfl
    rw [hcomm]
    exact ih _

/-- Filtering the table by a predicate that holds on every row printing as
`pid` does not change the row found for `pid`. -/
theorem rowFor_filter (db : List PlayerRow) (pid : String) (q : PlayerRow → Bool)
    (hq : ∀ r, natStr r.sleeper_id = pid → q r = true) :
    rowFor (db.filter q) pid = rowFor db pid := by
  suffices h : ∀ (acc : Option PlayerRow),
      (db.filter q).foldl (fun acc r => if natStr r.sleeper_id = pid then some r else acc) acc =
      db.foldl (fun acc r => if natStr r.sleeper_id = pid then some r else acc) acc from h none
  induction db with
  | nil => intro acc; rfl
  | cons r db ih =>
    intro acc
    by_cases hqr : q r = true
    · simp only [List.filter_cons, hqr, if_pos, List.foldl_cons]
      exact ih _
    · simp only [List.filter_cons, hqr, Bool.false_eq_true, if_false, List.foldl_cons]
      have hnot : (if natStr r.sleeper_id = pid then some r else acc) = acc := by
        split_ifs with hh
        · exact absurd (hq r hh) hqr
        · rfl
      rw [hnot]
      exact ih _

/-- If no row of `db` prints as `pid`, no row is found for `pid`. -/
theorem rowFor_eq_none (db : List PlayerRow) (pid : String)
    (h : ∀ r ∈ db, natStr r.sleeper_id ≠ pid) : rowFor db pid = none := by
  suffices hs : ∀ (acc : Option PlayerRow), (∀ r ∈ db, natStr r.sleeper_id ≠ pid) →
      db.foldl (fun acc r => if natStr r.sleeper_id = pid then some r else acc) acc = acc from
    hs none h
  clear h
  induction db with
  | nil => intro acc _; rfl
  | cons r db ih =>
    intro acc hall
    simp only [List.foldl_cons]
    rw [if_neg (hall r (List.mem_cons_self r db))]
    exact ih acc (fun r' hr' => hall r' (List.mem_cons_of_mem r hr'))

/-! ## Claim theorems: id resolution semantics -/

/-- C1 counterexample: the numeric id `"007"` is sent to the backend as the
integer 7, whose row is present and returned, yet the output record is the
not-found fallback rather than the resolved `{X, QB, KC}` record — the
lookup dictionary is keyed by the canonical print `"7"`, which `"007"`
misses. -/
theorem c1_counterexample :
    isDigitStr "007" = true ∧
    pyInt "007" = 7 ∧
    resolveBatches ["007"] = [[7]] ∧
    (7 : ℕ) ∈ dbSeven.map PlayerRow.sleeper_id ∧
    _resolve_player_ids dbSeven ["007"] =
      [{ name := "007", position := "", team := "" }] ∧
    dbSeven.map recordOfRow = [{ name := "X", position := "QB", team := "KC" }] ∧
    ({ name := "007", position := "", team := "" } : ResolvedRecord) ≠
      { name := "X", position := "QB", team := "KC" } := by
  decide

/-- C1 (amended): for every backend table and input list, the output has
exactly the input's length, and the `i`-th output is a pure function of the
`i`-th id (so duplicates repeat the same value and no id is omitted): a
non-numeric id yields the fixed fallback `{name: id, position: "DEF",
team: id}` and its value never appears in a backend query; a numeric id in
canonical decimal form found in the backend yields its resolved record, and
any other numeric id — not found, or written non-canonically (e.g. with
leading zeros) even when its value is in the backend — yields the fallback
`{name: id, position: "", team: ""}`.  Every backend-queried integer comes
from a numeric input id. -/
theorem c1_resolution_shape :
    ∀ (db : List PlayerRow) (ids : List String),
      (_resolve_player_ids db ids).length = ids.length ∧
      _resolve_player_ids db ids = ids.map (specResolveOne db) ∧
      (∀ b q, resolveBatches ids = [b] → q ∈ b →
        ∃ pid, pid ∈ ids ∧ isDigitStr pid = true ∧ q = pyInt pid) := by
  intro db ids
  have hmain : _resolve_player_ids db ids = ids.map (specResolveOne db) := by
    by_cases hids : ids.isEmpty = true
    · rw [List.isEmpty_iff.mp hids]
      rfl
    · rw [Bool.not_eq_true] at hids
      simp only [_resolve_player_ids, hids, Bool.false_eq_true, if_false]
      refine List.map_congr_left ?_
      intro pid hpid
      by_cases hdig : isDigitStr pid = true
      · have hmem : pid ∈ ids.filter isDigitStr := List.mem_filter.mpr ⟨hpid, hdig⟩
        have hne : (ids.filter isDigitStr).isEmpty = false := by
          cases hfe : ids.filter isDigitStr with
          | nil => rw [hfe] at hmem; cases hmem
          | cons a l => rfl
        rw [if_pos (by rw [hne]; rfl)]
        rw [dictGet_map_eq_rowFor]
        rw [rowFor_filter db pid _ ?hq]
        case hq =>
          intro r hkey
          have hsid : r.sleeper_id = pyInt pid := by
            rw [← hkey, pyInt_natStr]
          simp only [decide_eq_true_eq, hsid]
          exact List.mem_map_of_mem pyInt hmem
        cases hrow : rowFor db pid with
        | some r => simp [specResolveOne, hdig, hrow]
        | none => simp [specResolveOne, hdig, hrow]
      · have hget : ∀ (l : List PlayerRow),
            dictGet (l.map (fun r => (natStr r.sleeper_id, recordOfRow r))) pid = none := by
          intro l
          rw [dictGet_map_eq_rowFor, rowFor_eq_none]
          · rfl
          · intro r _ hkey
            exact hdig (hkey ▸ natStr_isDigitStr r.sleeper_id)
        by_cases hne : (ids.filter isDigitStr).isEmpty = true
        · rw [if_neg (by simp [hne])]
          simp [dictGet, specResolveOne, hdig]
        · rw [Bool.not_eq_true] at hne
          rw [if_pos (by rw [hne]; rfl)]
          rw [hget]
          simp [specResolveOne, hdig]
  refine ⟨by rw [hmain, List.length_map], hmain, ?_⟩
  intro b q hb hq
  unfold resolveBatches at hb
  by_cases hne : (ids.filter isDigitStr).isEmpty = true
  · rw [if_pos (by rw [hne])] at hb
    cases hb
  · rw [Bool.not_eq_true] at hne
    rw [if_neg (by rw [hne]; exact fun h => nomatch h)] at hb
    have hbval : b = (ids.filter isDigitStr).map pyInt := by
      injection hb with h1 _
      exact h1.symm
    rw [hbval] at hq
    rcases List.mem_map.mp hq with ⟨pid, hpid, hval⟩
    rcases List.mem_filter.mp hpid with ⟨hmem, hdig⟩
    exact ⟨pid, hmem, hdig, hval.symm⟩

/-- C1 witness: the order/fallback law instantiated at the one-row backend
and a mixed id list; the batch clause is exercised at the queried value 7. -/
theorem c1_resolution_shape_witness :
    resolveBatches ["HOU", "7", "99"] = [[7, 99]] ∧
    (7 : ℕ) ∈ [7, 99] ∧
    (∃ pid, pid ∈ ["HOU", "7", "99"] ∧ isDigitStr pid = true ∧ (7 : ℕ) = pyInt pid) :=
  ⟨by decide, by decide,
   (c1_resolution_shape dbSeven ["HOU", "7", "99"]).2.2 [7, 99] 7 (by decide) (by decide)⟩

/-! ## Claim theorems: query builder position filter -/

/-- C8: the effective position list is the caller's argument whenever one is
supplied (the defaults are then ignored, even if the argument equals them)
and the defaults otherwise; every effective code is upper-cased; a non-empty
effective list yields a membership filter on the position column, while an
empty/falsy one — empty defaults, or an empty list explicitly passed —
applies no position filter at all. -/
theorem c8_position_filter :
    ∀ (positions : Option (List String)) (default_positions : List String)
      (rows : List StatRow),
      (∀ l d1 d2, positionsListOf (some l) d1 = positionsListOf (some l) d2) ∧
      (∀ eff, positionsListOf positions default_positions = some eff →
        eff = (positions.getD default_positions).map pyUpper ∧ eff ≠ []) ∧
      ((positions.getD default_positions) = [] →
        applyPositionFilter positions default_positions rows = rows) ∧
      ((positions.getD default_positions) ≠ [] →
        applyPositionFilter positions default_positions rows =
          rows.filter (fun r =>
            ((positions.getD default_positions).map pyUpper).contains r.position)) := by
  intro positions default_positions rows
  have heq : positionsListOf positions default_positions =
      (if (positions.getD default_positions).isEmpty = true then none
       else some ((positions.getD default_positions).map pyUpper)) := by
    cases positions <;> rfl
  refine ⟨fun l d1 d2 => rfl, ?_, ?_, ?_⟩
  · intro eff h
    rw [heq] at h
    by_cases he : (positions.getD default_positions).isEmpty = true
    · rw [if_pos he] at h
      cases h
    · rw [if_neg he] at h
      injection h with h
      refine ⟨h.symm, ?_⟩
      rw [← h]
      intro hcon
      have hnil := List.map_eq_nil_iff.mp hcon
      rw [hnil] at he
      exact he rfl
  · intro hpl
    unfold applyPositionFilter
    rw [heq, hpl]
    rfl
  · intro hpl
    have he : (positions.getD default_positions).isEmpty = false := by
      cases hc : positions.getD default_positions with
      | nil => exact absurd hc hpl
      | cons a l => rfl
    unfold applyPositionFilter
    rw [heq, he]
    rfl

/-- C8 witness: the filter law at an explicitly supplied lower-case position
list and two sample rows. -/
theorem c8_position_filter_witness :
    positionsListOf (some ["qb"]) ["WR"] = some ["QB"] ∧
    (["QB"] = ((some ["qb"] : Option (List String)).getD ["WR"]).map pyUpper ∧
      ["QB"] ≠ ([] : List String)) ∧
    ((some ["qb"] : Option (List String)).getD ["WR"] ≠ []) ∧
    applyPositionFilter (some ["qb"]) ["WR"] sampleRows =
      sampleRows.filter (fun r =>
        (((some ["qb"] : Option (List String)).getD ["WR"]).map pyUpper).contains
          r.position) :=
  ⟨by decide,
   (c8_position_filter (some ["qb"]) ["WR"] sampleRows).2.1 ["QB"] (by decide),
   by decide,
   (c8_position_filter (some ["qb"]) ["WR"] sampleRows).2.2.2 (by decide)⟩

/-! ## Character-level lemmas for `sanitize_name` -/

/-- Characters compare by code point. -/
theorem char_le_iff_toNat (a b : Char) : a ≤ b ↔ a.toNat ≤ b.toNat := by
  rw [Char.le_def, UInt32.le_def, BitVec.le_def]
  rfl

/-- Characters are equal iff their code points are. -/
theorem char_eq_iff_toNat (a b : Char) : a = b ↔ a.toNat = b.toNat := by
  constructor
  · intro h; rw [h]
  · intro h
    apply Char.eq_of_val_eq
    apply UInt32.eq_of_toBitVec_eq
    apply BitVec.eq_of_toNat_eq
    exact h

/-- `Char.ofNat` round-trips on code points below the surrogate range. -/
theorem toNat_charOfNat (n : ℕ) (h : n < 55296) : (Char.ofNat n).toNat = n := by
  rw [Char.ofNat, dif_pos (Or.inl h)]
  rfl

/-- Code point of the lower-cased image of an ASCII capital. -/
theorem pyLowerChar_toNat_of_upper {c : Char} (h1 : 65 ≤ c.toNat) (h2 : c.toNat ≤ 90) :
    (pyLowerChar c).toNat = c.toNat + 32 := by
  rw [pyLowerChar, if_pos ⟨(char_le_iff_toNat 'A' c).mpr h1, (char_le_iff_toNat c 'Z').mpr h2⟩]
  exact toNat_charOfNat _ (by omega)

/-- `pyLowerChar` is the identity off the ASCII capitals. -/
theorem pyLowerChar_eq_self {c : Char} (h : ¬(65 ≤ c.toNat ∧ c.toNat ≤ 90)) :
    pyLowerChar c = c := by
  rw [pyLowerChar, if_neg]
  intro ⟨ha, hb⟩
  exact h ⟨(char_le_iff_toNat 'A' c).mp ha, (char_le_iff_toNat c 'Z').mp hb⟩

/-- Whitespace characters all lie at code points `≤ 32`. -/
theorem isSpaceChar_toNat_le {c : Char} (h : isSpaceChar c = true) : c.toNat ≤ 32 := by
  simp only [isSpaceChar, Bool.or_eq_true, decide_eq_true_eq] at h
  rcases h with ((((h | h) | h) | h) | h) | h <;> rw [h] <;> decide

/-- Lower-casing one character is idempotent. -/
theorem pyLowerChar_idem (c : Char) : pyLowerChar (pyLowerChar c) = pyLowerChar c := by
  by_cases h : 65 ≤ c.toNat ∧ c.toNat ≤ 90
  · have hd := pyLowerChar_toNat_of_upper h.1 h.2
    exact pyLowerChar_eq_self (by omega)
  · rw [pyLowerChar_eq_self h, pyLowerChar_eq_self h]

/-- Lower-casing does not change whether a character is whitespace. -/
theorem isSpaceChar_pyLowerChar (c : Char) : isSpaceChar (pyLowerChar c) = isSpaceChar c := by
  by_cases h : 65 ≤ c.toNat ∧ c.toNat ≤ 90
  · have hd := pyLowerChar_toNat_of_upper h.1 h.2
    cases hc : isSpaceChar c with
    | true => exact absurd (isSpaceChar_toNat_le hc) (by omega)
    | false =>
      cases hc' : isSpaceChar (pyLowerChar c) with
      | true => exact absurd (isSpaceChar_toNat_le hc') (by omega)
      | false => rfl
  · rw [pyLowerChar_eq_self h]

/-- Lower-casing keeps a character inside the `[A-Za-z0-9\s-]` class kept by
the punctuation pass. -/
theorem punctKeep_pyLowerChar {c : Char} (h : punctKeep c = true) :
    punctKeep (pyLowerChar c) = true := by
  by_cases hc : 65 ≤ c.toNat ∧ c.toNat ≤ 90
  · have hd := pyLowerChar_toNat_of_upper hc.1 hc.2
    have hlow : (pyLowerChar c).isLower = true := by
      simp only [Char.isLower, Bool.and_eq_true, decide_eq_true_eq]
      have ha : ('a' : Char).toNat = 97 := rfl
      have hz : ('z' : Char).toNat = 122 := rfl
      exact ⟨(char_le_iff_toNat 'a' _).mpr (by omega), (char_le_iff_toNat _ 'z').mpr (by omega)⟩
    simp [punctKeep, Char.isAlpha, hlow]
  · rw [pyLowerChar_eq_self hc]
    exact h

/-! ## List-level lemmas for `sanitize_name` -/

/-- The whitespace collapse emits only the space character and non-space
input characters, all inside the kept class. -/
theorem collapseWs_keep (l : List Char) :
    ∀ (b : Bool), (∀ c ∈ l, punctKeep c = true) → ∀ c ∈ collapseWs b l, punctKeep c = true := by
  induction l with
  | nil => intro b _ c hc; simp [collapseWs] at hc
  | cons a l ih =>
    intro b hall c hc
    have htail : ∀ c ∈ l, punctKeep c = true := fun c hc => hall c (List.mem_cons_of_mem a hc)
    by_cases hsp : isSpaceChar a = true
    · cases b with
      | true =>
        simp only [collapseWs, hsp, if_pos, if_true] at hc
        exact ih true htail c hc
      | false =>
        simp only [collapseWs, hsp, if_pos, if_false] at hc
        rcases List.mem_cons.mp hc with hc | hc
        · rw [hc]; decide
        · exact ih true htail c hc
    · simp only [collapseWs, hsp, if_neg, if_false] at hc
      rcases List.mem_cons.mp hc with hc | hc
      · rw [hc]; exact hall a (List.mem_cons_self a l)
      · exact ih false htail c hc

/-- Every whitespace character the collapse emits is the plain space. -/
theorem collapseWs_blank (l : List Char) :
    ∀ (b : Bool), ∀ c ∈ collapseWs b l, isSpaceChar c = true → c = ' ' := by
  induction l with
  | nil => intro b c hc; simp [collapseWs] at hc
  | cons a l ih =>
    intro b c hc hspc
    by_cases hsp : isSpaceChar a = true
    · cases b with
      | true =>
        simp only [collapseWs, hsp, if_pos, if_true] at hc
        exact ih true c hc hspc
      | false =>
        simp only [collapseWs, hsp, if_pos, if_false] at hc
        rcases List.mem_cons.mp hc with hc | hc
        · exact hc
        · exact ih true c hc hspc
    · simp only [collapseWs, hsp, if_neg, if_false] at hc
      rcases List.mem_cons.mp hc with hc | hc
      · rw [hc] at hspc; exact absurd hspc hsp
      · exact ih false c hc hspc

/-- The collapse output has no adjacent whitespace pair, and starts with a
non-space character whenever the flag records a pending space run. -/
theorem collapseWs_wsOk (l : List Char) :
    ∀ (b : Bool), WsOk (collapseWs b l) ∧ (b = true → HeadNotWs (collapseWs b l)) := by
  induction l with
  | nil =>
    intro b
    refine ⟨List.chain'_nil, fun _ c hc => ?_⟩
    simp [collapseWs] at hc
  | cons a l ih =>
    intro b
    cases hsp : isSpaceChar a with
    | true =>
      cases b with
      | true =>
        have hred : collapseWs true (a :: l) = collapseWs true l := by
          simp [collapseWs, hsp]
        rw [hred]
        exact ⟨(ih true).1, fun _ => (ih true).2 rfl⟩
      | false =>
        have hred : collapseWs false (a :: l) = ' ' :: collapseWs true l := by
          simp [collapseWs, hsp]
        rw [hred]
        refine ⟨List.chain'_cons'.mpr ⟨?_, (ih true).1⟩, fun h => nomatch h⟩
        intro y hy hcon
        have hns := (ih true).2 rfl y hy
        rw [hcon.2] at hns
        cases hns
    | false =>
      have hred : collapseWs b (a :: l) = a :: collapseWs false l := by
        simp [collapseWs, hsp]
      rw [hred]
      refine ⟨List.chain'_cons'.mpr ⟨?_, (ih false).1⟩, ?_⟩
      · intro y _ hcon
        rw [hcon.1] at hsp
        cases hsp
      · intro _ c hc
        simp only [List.head?_cons, Option.mem_def, Option.some.injEq] at hc
        rw [← hc]
        exact hsp

/-- On input already in collapsed form — whitespace only as single spaces,
none adjacent, and none leading when the flag records a pending run — the
whitespace collapse is the identity. -/
theorem collapseWs_fix (l : List Char) :
    ∀ (b : Bool), (∀ c ∈ l, isSpaceChar c = true → c = ' ') → WsOk l →
      (b = true → HeadNotWs l) → collapseWs b l = l := by
  induction l with
  | nil => intro b _ _ _; simp [collapseWs]
  | cons a l ih =>
    intro b hblank hws hhead
    cases hsp : isSpaceChar a with
    | true =>
      have ha : a = ' ' := hblank a (List.mem_cons_self a l) hsp
      cases b with
      | true =>
        have hcon := hhead rfl a rfl
        rw [hsp] at hcon
        cases hcon
      | false =>
        have hred : collapseWs false (a :: l) = ' ' :: collapseWs true l := by
          simp [collapseWs, hsp]
        rw [hred, ← ha]
        congr 1
        apply ih true
        · exact fun c hc h => hblank c (List.mem_cons_of_mem a hc) h
        · exact List.Chain'.tail hws
        · intro _ c hc
          have hcc := (List.chain'_cons'.mp hws).1 c hc
          cases hc2 : isSpaceChar c with
          | true => exact absurd ⟨hsp, hc2⟩ hcc
          | false => rfl
    | false =>
      have hred : collapseWs b (a :: l) = a :: collapseWs false l := by
        simp [collapseWs, hsp]
      rw [hred]
      congr 1
      apply ih false
      · exact fun c hc h => hblank c (List.mem_cons_of_mem a hc) h
      · exact List.Chain'.tail hws
      · intro h; cases h

/-- After dropping leading whitespace, the head is not whitespace. -/
theorem headNotWs_dropWhile (l : List Char) : HeadNotWs (l.dropWhile isSpaceChar) := by
  intro c hc
  have h := List.head?_dropWhile_not isSpaceChar l
  rw [Option.mem_def] at hc
  rw [hc] at h
  exact h

/-- `strip` output has no leading and no trailing whitespace. -/
theorem pyStrip_ends (l : List Char) : HeadNotWs (pyStrip l) ∧ LastNotWs (pyStrip l) := by
  constructor
  · intro c hc
    rw [pyStrip, Option.mem_def, List.head?_reverse] at hc
    obtain ⟨t, ht⟩ := List.dropWhile_suffix (l := (l.dropWhile isSpaceChar).reverse) isSpaceChar
    have h2 : ((l.dropWhile isSpaceChar).reverse).getLast? = some c := by
      rw [← ht, List.getLast?_append, hc]
      rfl
    rw [List.getLast?_reverse] at h2
    exact headNotWs_dropWhile l c h2
  · intro c hc
    rw [pyStrip, Option.mem_def, List.getLast?_reverse] at hc
    exact headNotWs_dropWhile _ c hc

/-- On input with no leading and no trailing whitespace, `strip` is the
identity. -/
theorem pyStrip_fix (l : List Char) (hh : HeadNotWs l) (hl : LastNotWs l) : pyStrip l = l := by
  have h1 : l.dropWhile isSpaceChar = l := by
    cases l with
    | nil => rfl
    | cons a m =>
      have ha := hh a rfl
      exact List.dropWhile_cons_of_neg (by simp [ha])
  rw [pyStrip, h1]
  have h2 : l.reverse.dropWhile isSpaceChar = l.reverse := by
    cases hr : l.reverse with
    | nil => rfl
    | cons a t =>
      have hhead : l.reverse.head? = some a := by rw [hr]; rfl
      rw [List.head?_reverse] at hhead
      have ha := hl a hhead
      exact List.dropWhile_cons_of_neg (by simp [ha])
  rw [h2, List.reverse_reverse]

/-- Every character of the stripped list occurs in the original. -/
theorem mem_pyStrip {l : List Char} {c : Char} (hc : c ∈ pyStrip l) : c ∈ l := by
  rw [pyStrip, List.mem_reverse] at hc
  have h1 : c ∈ (l.dropWhile isSpaceChar).reverse :=
    (List.dropWhile_sublist isSpaceChar).subset hc
  rw [List.mem_reverse] at h1
  exact (List.dropWhile_sublist isSpaceChar).subset h1

/-- Dropping a whitespace prefix preserves the no-adjacent-whitespace
invariant. -/
theorem wsOk_dropWhile (m : List Char) : WsOk m → WsOk (m.dropWhile isSpaceChar) := by
  induction m with
  | nil => intro hm; exact hm
  | cons a m ih =>
    intro hm
    by_cases hsp : isSpaceChar a = true
    · rw [List.dropWhile_cons_of_pos hsp]
      exact ih (List.Chain'.tail hm)
    · rw [List.dropWhile_cons_of_neg hsp]
      exact hm

/-- Reversal preserves the no-adjacent-whitespace invariant. -/
theorem wsOk_reverse (m : List Char) (hm : WsOk m) : WsOk m.reverse := by
  rw [WsOk, List.chain'_reverse]
  exact List.Chain'.imp (fun a b hab hc => hab ⟨hc.2, hc.1⟩) hm

/-- `strip` preserves the no-adjacent-whitespace invariant. -/
theorem wsOk_pyStrip (l : List Char) (h : WsOk l) : WsOk (pyStrip l) :=
  wsOk_reverse _ (wsOk_dropWhile _ (wsOk_reverse _ (wsOk_dropWhile _ h)))

/-- Lower-casing preserves the no-adjacent-whitespace invariant. -/
theorem wsOk_pyLower (l : List Char) (h : WsOk l) : WsOk (pyLower l) := by
  rw [WsOk, pyLower, List.chain'_map]
  exact List.Chain'.imp
    (fun a b hab hc => hab (by
      rw [← isSpaceChar_pyLowerChar a, ← isSpaceChar_pyLowerChar b]
      exact hc)) h

/-- Lower-casing preserves a non-whitespace head. -/
theorem headNotWs_pyLower (l : List Char) (h : HeadNotWs l) : HeadNotWs (pyLower l) := by
  intro c hc
  rw [pyLower, Option.mem_def, List.head?_map] at hc
  cases hl : l.head? with
  | none => rw [hl] at hc; cases hc
  | some d =>
    rw [hl] at hc
    have hcd : pyLowerChar d = c := by
      simpa using hc
    rw [← hcd, isSpaceChar_pyLowerChar]
    exact h d hl

/-- Lower-casing preserves a non-whitespace last character. -/
theorem lastNotWs_pyLower (l : List Char) (h : LastNotWs l) : LastNotWs (pyLower l) := by
  intro c hc
  rw [pyLower, Option.mem_def, List.getLast?_eq_head?_reverse, ← List.map_reverse,
    List.head?_map] at hc
  cases hl : l.reverse.head? with
  | none => rw [hl] at hc; cases hc
  | some d =>
    rw [hl] at hc
    have hcd : pyLowerChar d = c := by
      simpa using hc
    rw [← hcd, isSpaceChar_pyLowerChar]
    apply h
    rw [List.getLast?_eq_head?_reverse]
    exact hl

/-- The tail of the sanitization pipeline (punctuation removal, whitespace
collapse, strip, lower-case) always lands in its fixed-point class: all
characters kept and lower-cased, whitespace only as single interior
spaces. -/
theorem sanitized_props (z : List Char) :
    (∀ c ∈ pyLower (pyStrip (collapseWs false (z.filter punctKeep))), punctKeep c = true) ∧
    (∀ c ∈ pyLower (pyStrip (collapseWs false (z.filter punctKeep))),
      isSpaceChar c = true → c = ' ') ∧
    WsOk (pyLower (pyStrip (collapseWs false (z.filter punctKeep)))) ∧
    HeadNotWs (pyLower (pyStrip (collapseWs false (z.filter punctKeep)))) ∧
    LastNotWs (pyLower (pyStrip (collapseWs false (z.filter punctKeep)))) ∧
    (∀ c ∈ pyLower (pyStrip (collapseWs false (z.filter punctKeep))), pyLowerChar c = c) := by
  have hkeepW : ∀ c ∈ z.filter punctKeep, punctKeep c = true :=
    fun c hc => List.of_mem_filter hc
  have hkeepV : ∀ c ∈ collapseWs false (z.filter punctKeep), punctKeep c = true :=
    collapseWs_keep _ false hkeepW
  have hblankV := collapseWs_blank (z.filter punctKeep) false
  have hwsV := (collapseWs_wsOk (z.filter punctKeep) false).1
  have hwsT := wsOk_pyStrip _ hwsV
  have hends := pyStrip_ends (collapseWs false (z.filter punctKeep))
  refine ⟨?_, ?_, wsOk_pyLower _ hwsT, headNotWs_pyLower _ hends.1,
    lastNotWs_pyLower _ hends.2, ?_⟩
  · intro c hc
    rcases List.mem_map.mp hc with ⟨d, hd, rfl⟩
    exact punctKeep_pyLowerChar (hkeepV d (mem_pyStrip hd))
  · intro c hc hsp
    rcases List.mem_map.mp hc with ⟨d, hd, rfl⟩
    rw [isSpaceChar_pyLowerChar] at hsp
    rw [hblankV d (mem_pyStrip hd) hsp]
    decide
  · intro c hc
    rcases List.mem_map.mp hc with ⟨d, hd, rfl⟩
    exact pyLowerChar_idem d

/-- On its fixed-point class, the tail of the sanitization pipeline is the
identity. -/
theorem sanitized_fix (D : List Char)
    (hkeep : ∀ c ∈ D, punctKeep c = true)
    (hblank : ∀ c ∈ D, isSpaceChar c = true → c = ' ')
    (hws : WsOk D) (hhead : HeadNotWs D) (hlast : LastNotWs D)
    (hlow : ∀ c ∈ D, pyLowerChar c = c) :
    pyLower (pyStrip (collapseWs false (D.filter punctKeep))) = D := by
  rw [List.filter_eq_self.mpr hkeep]
  rw [collapseWs_fix D false hblank hws (fun h => nomatch h)]
  rw [pyStrip_fix D hhead hlast]
  calc pyLower D = D.map id := List.map_congr_left hlow
    _ = D := List.map_id D

/-! ## Claim theorems: name sanitization -/

/-- C9 counterexample: sanitize("j$r") = "jr" — punctuation removal fuses
`j` and `r` into the suffix token `jr` — and a second application removes
that token as a name suffix, giving "", so sanitize is not idempotent. -/
theorem c9_counterexample :
    sanitize_name none "j$r" = "jr" ∧
    sanitize_name none (sanitize_name none "j$r") = "" ∧
    sanitize_name none (sanitize_name none "j$r") ≠ sanitize_name none "j$r" := by
  decide

/-- C9 (amended): sanitization is idempotent at every input whose sanitized
form is a fixed point of the suffix-removal pass (and of the optional accent
transliteration) — in general a second application can remove suffix tokens
(`jr`, `sr`, `ii`, `iii`, `iv`, `v`) that punctuation removal uncovered, as
at `"j$r"`. -/
theorem c9_sanitize_idempotent_on_suffix_fixed :
    ∀ (unidec : Option (List Char → List Char)) (x : String),
      applyUnidecode unidec (sanitize_name unidec x).data = (sanitize_name unidec x).data →
      subSuffix (sanitize_name unidec x).data = (sanitize_name unidec x).data →
      sanitize_name unidec (sanitize_name unidec x) = sanitize_name unidec x := by
  intro u x hu hs
  have hL : sanitize_name u (sanitize_name u x) =
      ⟨pyLower (pyStrip (collapseWs false
        (((sanitize_name u x).data).filter punctKeep)))⟩ := by
    show (⟨pyLower (pyStrip (collapseWs false
      ((subSuffix (applyUnidecode u (sanitize_name u x).data)).filter punctKeep)))⟩ : String) = _
    rw [hu, hs]
  obtain ⟨hkeep, hblank, hws, hhead, hlast, hlow⟩ :=
    sanitized_props (subSuffix (applyUnidecode u x.data))
  have hfix : pyLower (pyStrip (collapseWs false
      (((sanitize_name u x).data).filter punctKeep))) = (sanitize_name u x).data :=
    sanitized_fix _ hkeep hblank hws hhead hlast hlow
  rw [hL, hfix]

/-- C9 witness: the amended idempotence law at the suffix-free name
`"abc"` with the transliteration dependency absent. -/
theorem c9_sanitize_idempotent_on_suffix_fixed_witness :
    applyUnidecode none (sanitize_name none "abc").data = (sanitize_name none "abc").data ∧
    subSuffix (sanitize_name none "abc").data = (sanitize_name none "abc").data ∧
    sanitize_name none (sanitize_name none "abc") = sanitize_name none "abc" :=
  ⟨rfl, by decide, c9_sanitize_idempotent_on_suffix_fixed none "abc" rfl (by decide)⟩
